import Mathlib

/-!
# Verification of the project allocation report tool

Shallow embedding of `project_report_after_adding_varsvetadata.py`.

Modelling conventions:
* Python floats are modelled as exact rationals (`ℚ`); `round(x, 2)` is
  modelled as decimal rounding on `ℚ` (`round2`).
* A pandas cell is `Cell`: `na` (NaN / missing), `num q` (a numeric value),
  or `str s` (a string that does not parse as a float; strings that do parse
  would already be modelled as `num`).
* A DataFrame of allocation rows is `AllocDf`: a list of project column
  labels plus rows `(Name value, cells aligned with the labels)`.
* `dict.get(k, 0)` over the actual-hours lookup is `lookupGet` over an
  association list (Python dicts have unique keys; `find?` takes the first).
* Raised exceptions are modelled with `Except String`.
* Python string comparison (used by `sort_values`) is code-point
  lexicographic; we embed it as `strLe` on the character lists.
-/

/-! ## Code-point lexicographic order on strings -/

/-- Lexicographic (code-point) `≤` on character lists, as Python compares
strings. -/
def lexLe : List Char → List Char → Bool
  | [], _ => true
  | _ :: _, [] => false
  | a :: as, b :: bs =>
    if a.toNat < b.toNat then true
    else if b.toNat < a.toNat then false
    else lexLe as bs

/-- Python-style `≤` on strings (code-point lexicographic). -/
def strLe (a b : String) : Bool := lexLe a.data b.data

theorem lexLe_refl : ∀ as, lexLe as as = true := by
  intro as
  induction as with
  | nil => rfl
  | cons a t ih => simp [lexLe, ih]

theorem lexLe_total : ∀ as bs, lexLe as bs = true ∨ lexLe bs as = true := by
  intro as
  induction as with
  | nil => intro bs; left; rfl
  | cons a t ih =>
    intro bs
    cases bs with
    | nil => right; rfl
    | cons b u =>
      rcases Nat.lt_trichotomy a.toNat b.toNat with h | h | h
      · left; simp [lexLe, h]
      · rcases ih u with h' | h' <;> [left; right] <;>
          simp [lexLe, h, h', Nat.lt_irrefl]
      · right; simp [lexLe, h, Nat.lt_asymm h]

theorem char_toNat_inj {a b : Char} (h : a.toNat = b.toNat) : a = b :=
  Char.ext (UInt32.ext h)

theorem lexLe_antisymm :
    ∀ as bs, lexLe as bs = true → lexLe bs as = true → as = bs := by
  intro as
  induction as with
  | nil =>
    intro bs _ hba
    cases bs with
    | nil => rfl
    | cons b u => simp [lexLe] at hba
  | cons a t ih =>
    intro bs hab hba
    cases bs with
    | nil => simp [lexLe] at hab
    | cons b u =>
      rcases Nat.lt_trichotomy a.toNat b.toNat with h | h | h
      · simp [lexLe, h, Nat.lt_asymm h] at hba
      · simp only [lexLe, h, Nat.lt_irrefl, if_false, if_neg] at hab hba
        have := ih u (by simpa [Nat.lt_irrefl, h] using hab)
          (by simpa [Nat.lt_irrefl, h] using hba)
        rw [char_toNat_inj h, this]
      · simp [lexLe, h, Nat.lt_asymm h] at hab

theorem lexLe_trans :
    ∀ as bs cs, lexLe as bs = true → lexLe bs cs = true → lexLe as cs = true := by
  intro as
  induction as with
  | nil => intro bs cs _ _; rfl
  | cons a t ih =>
    intro bs cs hab hbc
    cases bs with
    | nil => simp [lexLe] at hab
    | cons b u =>
      cases cs with
      | nil => simp [lexLe] at hbc
      | cons c v =>
        rcases Nat.lt_trichotomy a.toNat b.toNat with h1 | h1 | h1
        · rcases Nat.lt_trichotomy b.toNat c.toNat with h2 | h2 | h2
          · simp [lexLe, Nat.lt_trans h1 h2]
          · simp [lexLe, h2 ▸ h1]
          · simp [lexLe, h2, Nat.lt_asymm h2] at hbc
        · rcases Nat.lt_trichotomy b.toNat c.toNat with h2 | h2 | h2
          · simp [lexLe, h1 ▸ h2]
          · have h3 : a.toNat = c.toNat := h1.trans h2
            simp only [lexLe, h1, h2, h3, Nat.lt_irrefl, if_false] at hab hbc ⊢
            exact ih u v (by simpa using hab) (by simpa using hbc)
          · simp [lexLe, h2, Nat.lt_asymm h2] at hbc
        · simp [lexLe, h1, Nat.lt_asymm h1] at hab

theorem strLe_refl (a : String) : strLe a a = true := lexLe_refl _

theorem strLe_total (a b : String) : strLe a b = true ∨ strLe b a = true :=
  lexLe_total _ _

theorem strLe_antisymm {a b : String} (h1 : strLe a b = true)
    (h2 : strLe b a = true) : a = b := by
  cases a with
  | mk da =>
    cases b with
    | mk db =>
      exact congrArg String.mk (lexLe_antisymm da db h1 h2)

theorem strLe_trans {a b c : String} (h1 : strLe a b = true)
    (h2 : strLe b c = true) : strLe a c = true :=
  lexLe_trans _ _ _ h1 h2

/-! ## Data model -/

/-- A pandas cell of the uploaded allocation CSV: missing (`NaN`), a numeric
value, or a string that does not parse as a float (a string cell that does
parse as a float is modelled directly as `num`). -/
inductive Cell where
  | na : Cell
  | num : ℚ → Cell
  | str : String → Cell
deriving DecidableEq

/-- A cell after the successful `astype(float)` conversion: missing or
numeric. -/
inductive NCell where
  | na : NCell
  | num : ℚ → NCell
deriving DecidableEq

/-- The uploaded allocation DataFrame: the non-`Name` column labels in
order, and one row per employee, `(value of the Name column, cells aligned
with the labels)`. -/
structure AllocDf where
  cols : List String
  rows : List (String × List Cell)
deriving DecidableEq

/-- A row of the reconciler's output DataFrame:
`{Name, Project, Expected Hours, Actual Hours, Completion %}`. -/
structure RecR where
  name : String
  project : String
  expected : ℚ
  actual : ℚ
  completion : ℚ
deriving DecidableEq

/-- The actual-hours lookup: a Python dict keyed by
`(employee, canonical project)`, as an association list (dict keys are
unique; `find?` takes the first binding). -/
abbrev Lookup := List ((String × String) × ℚ)

/-- Python's `dict.get(k, 0)` on the actual-hours lookup. -/
def lookupGet (lk : Lookup) (k : String × String) : ℚ :=
  match lk.find? (fun p => p.1 == k) with
  | some p => p.2
  | none => 0

/-! ## Static mappings from the source -/

/-- A value of `PROJECT_NAME_MAPPING`: a single canonical name, or the list
of canonical names of a combined column. -/
inductive ProjVal where
  | one : String → ProjVal
  | many : List String → ProjVal
deriving DecidableEq

/-- Embedding of `PROJECT_NAME_MAPPING` from the source.  The source dict literal writes
the key `'Super Eng.'` twice (first `'SuperEngineer'`, then `'Alpha'`);
Python dict semantics keep only the last binding, so the effective mapping
has the single entry `'Super Eng.' ↦ 'Alpha'`. -/
def PROJECT_NAME_MAPPING : List (String × ProjVal) := [
  ("SDI", .one "SDI"),
  ("Vars/Vita.", .many ["VARS", "Vitawerks"]),
  ("Kinergy", .one "Kinergy"),
  ("Nabis - Retainer", .one "Nabis"),
  ("Nabis - 3C", .one "Nabis:Data Warehouse"),
  ("STT - Daily Shuttle", .one "STT"),
  ("Lithium", .one "Lithium"),
  ("Phoenix", .one "Phoenix"),
  ("ForceMultipler", .one "ForceMultiplier"),
  ("QualApps", .one "QualApps"),
  ("Alma", .one "Alma"),
  ("Super Eng.", .one "Alpha"),
  ("Digital Twin", .one "Digital Twin"),
  ("Project Alc.", .one "Project Allocation"),
  ("VISO Training", .one "Project Viso"),
  ("Rhythm", .one "Rhythmm"),
  ("Text Vegas", .one "Text Vegas")]

/-- Embedding of `MONTH_MAPPING` from the source. -/
def MONTH_MAPPING : List (String × String) := [
  ("Jan", "January"), ("Feb", "February"), ("Mar", "March"),
  ("Apr", "April"), ("May", "May"), ("Jun", "June"),
  ("Jul", "July"), ("Aug", "August"), ("Sep", "September"),
  ("Oct", "October"), ("Nov", "November"), ("Dec", "December")]

/-- Embedding of `IGNORED_COLUMNS` from the source. -/
def IGNORED_COLUMNS : List String :=
  ["Dept", "Level", "Internal Alc.", "Avail. Bandwidth", "Project Alc."]

/-- Membership of a column label in `IGNORED_COLUMNS`. -/
def isIgnored (c : String) : Bool := IGNORED_COLUMNS.any (fun x => x == c)

/-! ## Reconciler (`process_allocation_csv`) -/

/-- Python's `round` to a given number of decimals, on exact rationals:
`round2 q` models `round(q, 2)`. -/
def round2 (q : ℚ) : ℚ := ((round (q * 100) : ℤ) : ℚ) / 100

/-- The completion-percentage computation of the reconciler (source lines
174–177): `0` when `expected_hours` is not positive, otherwise
`min(round(actual/expected*100, 2), 100)`. -/
def completion_pct (expected actual : ℚ) : ℚ :=
  if 0 < expected then min (round2 (actual / expected * 100)) 100 else 0

/-- The value `PROJECT_NAME_MAPPING['Vars/Vita.']`: the list of canonical projects of
the combined column (the defaults of the match are dead: the mapping does
contain the key and its value is a list). -/
def varsVitaProjects : List String :=
  match PROJECT_NAME_MAPPING.find? (fun p => p.1 == "Vars/Vita.") with
  | some (_, ProjVal.many ps) => ps
  | _ => []

/-- The standardized project name the reconciler emits for a raw column
label (source lines 151–164): the combined column gets the fixed label
`'VARS/Vitawerks'`, a mapped column its mapped name, an unmapped column
passes through unchanged.  The wildcard arm is dead code: the only
list-valued entry of the mapping is `'Vars/Vita.'`, which the inner branch
handles. -/
def standardized_project (c : String) : String :=
  if (PROJECT_NAME_MAPPING.find? (fun p => p.1 == c)).isSome then
    if c == "Vars/Vita." then "VARS/Vitawerks"
    else
      match PROJECT_NAME_MAPPING.find? (fun p => p.1 == c) with
      | some (_, ProjVal.one s) => s
      | _ => c
  else c

/-- The actual hours the reconciler attributes to `(employee, column)`
(source lines 151–165): the sum over both canonical projects for the
combined column, otherwise a single lookup under the standardized name. -/
def actual_for (lk : Lookup) (employee c : String) : ℚ :=
  if (PROJECT_NAME_MAPPING.find? (fun p => p.1 == c)).isSome then
    if c == "Vars/Vita." then
      (varsVitaProjects.map (fun p => lookupGet lk (employee, p))).sum
    else lookupGet lk (employee, standardized_project c)
  else lookupGet lk (employee, c)

/-- One output record of the reconciler for a qualifying cell. -/
def processCell (lk : Lookup) (employee c : String) (expected : ℚ) : RecR :=
  { name := employee
    project := standardized_project c
    expected := expected
    actual := actual_for lk employee c
    completion := completion_pct expected (actual_for lk employee c) }

/-- The records of one employee row: one per `(label, cell)` pair whose
cell is present and positive (source line 148); `NaN` and non-positive
cells are skipped. -/
def cellsRecords (lk : Lookup) (employee : String) :
    List (String × NCell) → List RecR
  | [] => []
  | (_, NCell.na) :: t => cellsRecords lk employee t
  | (c, NCell.num q) :: t =>
    if 0 < q then processCell lk employee c q :: cellsRecords lk employee t
    else cellsRecords lk employee t

/-- All records of the converted DataFrame, in row-major scan order. -/
def recordsOf (lk : Lookup) (cols : List String) :
    List (String × List NCell) → List RecR
  | [] => []
  | r :: t => cellsRecords lk r.1 (cols.zip r.2) ++ recordsOf lk cols t

/-- The `sort_values(['Name', 'Project'])` key order: ascending
lexicographic by employee name, then by project name. -/
def recLeB (a b : RecR) : Bool :=
  if a.name == b.name then strLe a.project b.project else strLe a.name b.name

/-- The sort relation as a `Prop`. -/
def recLe (a b : RecR) : Prop := recLeB a b = true

instance : DecidableRel recLe := fun a b => by unfold recLe; infer_instance

/-- Embedding of `result_df.sort_values(['Name', 'Project'])` (source line 193).  pandas
sorts ascending by the `(Name, Project)` key; we realize it with insertion
sort (the source's quicksort and this agree on the key order, which is all
the spec constrains). -/
def sortRecs (l : List RecR) : List RecR := l.insertionSort recLe

/-- Removal of the `IGNORED_COLUMNS` (source lines 120–122): `df.drop` on each
present ignored column.  `drop` returns a fresh frame, so the caller's
object is only mutated afterwards when no ignored column was present. -/
def dropIgnored (df : AllocDf) : AllocDf :=
  { cols := df.cols.filter (fun c => !(isIgnored c))
    rows := df.rows.map (fun r =>
      (r.1, ((df.cols.zip r.2).filter (fun p => !(isIgnored p.1))).map (·.2))) }

/-- Embedding of `Series.astype(float)` on one cell: `NaN` and numbers pass through with
their value, a non-numeric string raises `ValueError`. -/
def astype_float : Cell → Except String NCell
  | Cell.na => Except.ok NCell.na
  | Cell.num q => Except.ok (NCell.num q)
  | Cell.str s => Except.error ("could not convert string to float: " ++ s)

/-- The `astype(float)` conversion over the cells of a row. -/
def convertCells : List Cell → Except String (List NCell)
  | [] => Except.ok []
  | c :: t =>
    match astype_float c, convertCells t with
    | Except.ok c', Except.ok t' => Except.ok (c' :: t')
    | Except.error e, _ => Except.error e
    | _, Except.error e => Except.error e

/-- The numeric conversion of all non-`Name` columns (source lines
124–127).  The source converts column by column; success and the produced
values agree with this row-by-row pass. -/
def convertRows : List (String × List Cell) →
    Except String (List (String × List NCell))
  | [] => Except.ok []
  | r :: t =>
    match convertCells r.2, convertRows t with
    | Except.ok cs, Except.ok ts => Except.ok ((r.1, cs) :: ts)
    | Except.error e, _ => Except.error e
    | _, Except.error e => Except.error e

/-- An `NCell` written back as the caller sees it after `astype(float)`. -/
def backCell : NCell → Cell
  | NCell.na => Cell.na
  | NCell.num q => Cell.num q

/-- Embedding of `process_allocation_csv(df, month, year)` with the external
actual-hours lookup passed explicitly (the source obtains it from the
cached `fetch_all_actual_hours`; the unused `valid_users` set is omitted).
Returns the produced report rows together with the content of the caller's
DataFrame after the call: `df[col] = df[col].astype(float)` mutates the
frame in place, which is the caller's own object exactly when no ignored
column was present (otherwise `drop` already produced a fresh frame). -/
def process_allocation_csv (df : AllocDf) (lk : Lookup) :
    Except String (List RecR × AllocDf) :=
  let dfd := dropIgnored df
  match convertRows dfd.rows with
  | Except.error e => Except.error e
  | Except.ok nrows =>
    Except.ok (sortRecs (recordsOf lk dfd.cols nrows),
      if df.cols.any (fun c => isIgnored c) then df
      else { cols := df.cols
             rows := nrows.map (fun r => (r.1, r.2.map backCell)) })

/-! ## Month normalization -/

/-- ASCII lowercasing of a character, as Python's `str.lower` acts on the
ASCII letters (the month names involved are ASCII). -/
def lowerChar (c : Char) : Char :=
  if 'A' ≤ c ∧ c ≤ 'Z' then Char.ofNat (c.toNat + 32) else c

/-- ASCII `str.lower` on a string. -/
def lowerStr (s : String) : String := String.mk (s.data.map lowerChar)

/-- Boolean test that `n` is a prefix of `h` (on character lists). -/
def isPrefOf : List Char → List Char → Bool
  | [], _ => true
  | _ :: _, [] => false
  | a :: as, b :: bs => a == b && isPrefOf as bs

/-- Python's substring test `n in h` on character lists. -/
def substrOfL (n : List Char) : List Char → Bool
  | [] => n.isEmpty
  | b :: bs => isPrefOf n (b :: bs) || substrOfL n bs

/-- Python's substring test `n in h` on strings. -/
def substrOf (n h : String) : Bool := substrOfL n.data h.data

/-- Embedding of `list(calendar.month_name)`: the 13-entry Python list whose entry 0 is
the empty string. -/
def month_name : List String :=
  ["", "January", "February", "March", "April", "May", "June",
   "July", "August", "September", "October", "November", "December"]

/-- Embedding of `list(calendar.month_abbr)`: entry 0 is the empty string. -/
def month_abbr : List String :=
  ["", "Jan", "Feb", "Mar", "Apr", "May", "Jun",
   "Jul", "Aug", "Sep", "Oct", "Nov", "Dec"]

/-- Embedding of `standardize_month_name` from the source: dict lookup in
`MONTH_MAPPING`, identity on a miss. -/
def standardize_month_name (m : String) : String :=
  match MONTH_MAPPING.find? (fun p => p.1 == m) with
  | some p => p.2
  | none => m

/-- Python's `list.index`, returning the first index of an exact match,
`none` where Python raises `ValueError`. -/
def idxOf : List String → String → Option Nat
  | [], _ => none
  | a :: t, s => if a == s then some 0 else (idxOf t s).map (· + 1)

/-- The flexible-match fallback loop of `get_month_number` (source lines
71–74): the first `i > 0` such that the lowercased standardized name and
the lowercased `calendar.month_name[i]` contain one another, else the
default `1` (January).  The identical loop also realizes the spec's
"case-insensitive substring match against the twelve full month names
(either direction); on total miss, default to January". -/
def monthSubstrFallback (s : String) : Nat :=
  match (List.range 13).find? (fun i =>
      decide (0 < i) &&
        (substrOf (lowerStr s) (lowerStr (month_name.getD i "")) ||
         substrOf (lowerStr (month_name.getD i "")) (lowerStr s))) with
  | some i => i
  | none => 1

/-- Embedding of `get_month_number` from the source: standardize, try
`list(calendar.month_name).index`, fall back to the substring loop. -/
def get_month_number (m : String) : Nat :=
  let s := standardize_month_name m
  match idxOf month_name s with
  | some i => i
  | none => monthSubstrFallback s

/-- The canonical full month name the source's pipeline associates to an
input: `calendar.month_name[get_month_number(m)]` (the composite of
`standardize_month_name` and `get_month_number`, exactly as
`fetch_all_actual_hours` and the month sorting consume them). -/
def canonicalize_month (m : String) : String :=
  month_name.getD (get_month_number m) ""

/-- Modelled from the spec: the spec's month-canonicalization algorithm —
exact lookup in `MonthNameMap`; on a miss, a case-insensitive substring
match against the twelve full month names (either direction); on a total
miss the default `"January"`.  Used only to compare the claimed algorithm
with the source's `canonicalize_month`. -/
def canonicalize_month_spec (m : String) : String :=
  match MONTH_MAPPING.find? (fun p => p.1 == m) with
  | some p => p.2
  | none => month_name.getD (monthSubstrFallback m) ""

/-- The period string `f"{month_abbr} {year}"` sent to the warehouse query
(source lines 83–84). -/
def month_str (month year : String) : String :=
  month_abbr.getD (get_month_number month) "" ++ " " ++ year

/-! ## Actual-hours lookup builder (`fetch_all_actual_hours`) -/

/-- A raw ticket record from the external warehouse collaborator: person,
project, and time spent in seconds. -/
structure Ticket where
  teric_name : String
  teric_project_name : String
  time_spent : ℚ
deriving DecidableEq

/-- The outcome of the external `bq.jira_tickets` call: a DataFrame (which
may be empty or lack the `time_spent` column), or a raised error. -/
inductive BqOutcome where
  | ok : Bool → List Ticket → BqOutcome
  | raised : String → BqOutcome
deriving DecidableEq

/-- The `(employee, project)` key of a ticket. -/
def ticketKey (t : Ticket) : String × String := (t.teric_name, t.teric_project_name)

/-- The `≤` used for pandas' sorted `groupby` keys. -/
def keyLeB (a b : String × String) : Bool :=
  if a.1 == b.1 then strLe a.2 b.2 else strLe a.1 b.1

/-- The `groupby(["teric_name", "teric_project_name"]).sum().round(2)`
aggregation (source lines 91–103): seconds are divided by 3600, grouped by
key, summed and rounded to 2 decimals; pandas emits the group keys in
sorted order. -/
def buildLookup (ts : List Ticket) : Lookup :=
  (((ts.map ticketKey).dedup).insertionSort (fun a b => keyLeB a b = true)).map
    (fun k => (k, round2 (((ts.filter (fun t => ticketKey t == k)).map
      (fun t => t.time_spent / 3600)).sum)))

instance : DecidableRel (fun a b => keyLeB a b = true) := fun _ _ => by
  infer_instance

/-- Embedding of `fetch_all_actual_hours` with the external call's outcome passed
explicitly: a raised error is caught and surfaced as a warning (`true` in
the second component) with an empty mapping; an empty result or a missing
`time_spent` column yields an empty mapping without a warning; otherwise
the grouped lookup is built. -/
def fetch_all_actual_hours (r : BqOutcome) : Lookup × Bool :=
  match r with
  | BqOutcome.raised _ => ([], true)
  | BqOutcome.ok hasTimeSpent ts =>
    if !ts.isEmpty && hasTimeSpent then (buildLookup ts, false) else ([], false)

/-! ## Helper lemmas -/

deriving instance DecidableEq for Except

theorem processCell_expected (lk : Lookup) (n c : String) (q : ℚ) :
    (processCell lk n c q).expected = q := rfl

theorem processCell_actual (lk : Lookup) (n c : String) (q : ℚ) :
    (processCell lk n c q).actual = actual_for lk n c := rfl

theorem processCell_completion (lk : Lookup) (n c : String) (q : ℚ) :
    (processCell lk n c q).completion =
      completion_pct q (actual_for lk n c) := rfl

theorem mem_cellsRecords {lk : Lookup} {n : String} {r : RecR} :
    ∀ {ps : List (String × NCell)}, r ∈ cellsRecords lk n ps →
      ∃ c q, 0 < q ∧ r = processCell lk n c q := by
  intro ps
  induction ps with
  | nil => intro h; simp [cellsRecords] at h
  | cons p t ih =>
    intro h
    rcases p with ⟨c, cell⟩
    cases cell with
    | na => exact ih h
    | num q =>
      by_cases hq : 0 < q
      · rw [cellsRecords, if_pos hq] at h
        rcases List.mem_cons.mp h with h | h
        · exact ⟨c, q, hq, h⟩
        · exact ih h
      · rw [cellsRecords, if_neg hq] at h
        exact ih h

theorem mem_recordsOf {lk : Lookup} {cols : List String} {r : RecR} :
    ∀ {rows : List (String × List NCell)}, r ∈ recordsOf lk cols rows →
      ∃ n c q, 0 < q ∧ r = processCell lk n c q := by
  intro rows
  induction rows with
  | nil => intro h; simp [recordsOf] at h
  | cons row t ih =>
    intro h
    rcases List.mem_append.mp h with h | h
    · rcases mem_cellsRecords h with ⟨c, q, hq, he⟩
      exact ⟨row.1, c, q, hq, he⟩
    · exact ih h

theorem mem_sortRecs {l : List RecR} {r : RecR} : r ∈ sortRecs l ↔ r ∈ l :=
  List.mem_insertionSort _

theorem process_ok_elim {df : AllocDf} {lk : Lookup} {res : List RecR}
    {dfA : AllocDf}
    (h : process_allocation_csv df lk = Except.ok (res, dfA)) :
    ∃ nrows, convertRows (dropIgnored df).rows = Except.ok nrows ∧
      res = sortRecs (recordsOf lk (dropIgnored df).cols nrows) ∧
      dfA = (if df.cols.any (fun c => isIgnored c) then df
        else { cols := df.cols
               rows := nrows.map (fun r => (r.1, r.2.map backCell)) }) := by
  simp only [process_allocation_csv] at h
  cases hc : convertRows (dropIgnored df).rows with
  | error e => rw [hc] at h; simp at h
  | ok nrows =>
    rw [hc] at h
    simp only [Except.ok.injEq, Prod.mk.injEq] at h
    exact ⟨nrows, rfl, h.1.symm, h.2.symm⟩

theorem mem_process_ok {df : AllocDf} {lk : Lookup} {res : List RecR}
    {dfA : AllocDf} {r : RecR}
    (h : process_allocation_csv df lk = Except.ok (res, dfA))
    (hr : r ∈ res) : ∃ n c q, 0 < q ∧ r = processCell lk n c q := by
  rcases process_ok_elim h with ⟨nrows, _, hres, _⟩
  rw [hres] at hr
  exact mem_recordsOf (mem_sortRecs.mp hr)

/-! ## C1: completion percentage formula with cap -/

/-- C1: every record emitted by `process_allocation_csv` has positive
expected hours, and its completion percentage is exactly
`min(round(actual/expected*100, 2), 100)` — in particular it is capped at
100 even when actual exceeds expected. -/
theorem C1_completion_capped (df : AllocDf) (lk : Lookup) (res : List RecR)
    (dfA : AllocDf) (h : process_allocation_csv df lk = Except.ok (res, dfA)) :
    ∀ r ∈ res, 0 < r.expected ∧
      r.completion = min (round2 (r.actual / r.expected * 100)) 100 := by
  intro r hr
  rcases mem_process_ok h hr with ⟨n, c, q, hq, he⟩
  subst he
  refine ⟨hq, ?_⟩
  rw [processCell_expected, processCell_completion, processCell_actual,
    completion_pct, if_pos hq]

/-- A one-cell allocation table: Alice has 10 expected hours on `SDI`. -/
def dfC1 : AllocDf := { cols := ["SDI"], rows := [("Alice", [Cell.num 10])] }

/-- A lookup giving Alice 15 actual hours on `SDI` (overachievement). -/
def lkC1 : Lookup := [(("Alice", "SDI"), 15)]

/-- The single record the reconciler emits for `dfC1` under `lkC1`: the
completion percentage is the capped 100, not 150. -/
def recC1 : RecR :=
  { name := "Alice", project := "SDI", expected := 10, actual := 15,
    completion := 100 }

theorem process_dfC1 :
    process_allocation_csv dfC1 lkC1 = Except.ok ([recC1], dfC1) := by
  have h : processCell lkC1 "Alice" "SDI" 10 = recC1 := by
    rw [processCell]
    rw [show actual_for lkC1 "Alice" "SDI" = 15 from by decide]
    rw [show standardized_project "SDI" = "SDI" from by decide]
    unfold completion_pct round2 recC1
    norm_num
  simp only [process_allocation_csv]
  rw [show dropIgnored dfC1 = dfC1 from by decide]
  rw [show convertRows dfC1.rows = Except.ok [("Alice", [NCell.num 10])] from
    by decide]
  simp only [recordsOf, cellsRecords, sortRecs]
  norm_num [h]
  decide

/-- Witness for C1 at the concrete capping input: expected 10, actual 15,
emitted completion exactly 100. -/
theorem C1_completion_capped_witness :
    process_allocation_csv dfC1 lkC1 = Except.ok ([recC1], dfC1) ∧
      0 < recC1.expected ∧
      recC1.completion = min (round2 (recC1.actual / recC1.expected * 100)) 100 :=
  ⟨process_dfC1,
    (C1_completion_capped dfC1 lkC1 [recC1] dfC1 process_dfC1 recC1
      (List.mem_singleton.mpr rfl)).1,
    (C1_completion_capped dfC1 lkC1 [recC1] dfC1 process_dfC1 recC1
      (List.mem_singleton.mpr rfl)).2⟩

/-! ## C2: the combined `Vars/Vita.` column -/

theorem actual_for_varsVita (lk : Lookup) (n : String) :
    actual_for lk n "Vars/Vita." =
      lookupGet lk (n, "VARS") + lookupGet lk (n, "Vitawerks") := by
  rw [actual_for, if_pos (by decide), if_pos (by decide),
    show varsVitaProjects = ["VARS", "Vitawerks"] from by decide]
  simp

theorem processCell_varsVita (lk : Lookup) (n : String) (q : ℚ) :
    processCell lk n "Vars/Vita." q =
      { name := n, project := "VARS/Vitawerks", expected := q,
        actual := lookupGet lk (n, "VARS") + lookupGet lk (n, "Vitawerks"),
        completion := completion_pct q
          (lookupGet lk (n, "VARS") + lookupGet lk (n, "Vitawerks")) } := by
  rw [processCell, actual_for_varsVita,
    show standardized_project "Vars/Vita." = "VARS/Vitawerks" from by decide]

/-- Bob's allocation row: 10 expected hours under the combined column. -/
def dfBob : AllocDf :=
  { cols := ["Vars/Vita."], rows := [("Bob", [Cell.num 10])] }

/-- The lookup with Bob's actual hours on the two member projects. -/
def lkBob : Lookup := [(("Bob", "VARS"), 4), (("Bob", "Vitawerks"), 3)]

/-- The single record emitted for Bob: the fixed combined label, summed
actual hours 4 + 3 = 7, and completion 70%. -/
def recBob : RecR :=
  { name := "Bob", project := "VARS/Vitawerks", expected := 10, actual := 7,
    completion := 70 }

theorem process_dfBob :
    process_allocation_csv dfBob lkBob = Except.ok ([recBob], dfBob) := by
  have h : processCell lkBob "Bob" "Vars/Vita." 10 = recBob := by
    rw [processCell_varsVita,
      show lookupGet lkBob ("Bob", "VARS") = 4 from by decide,
      show lookupGet lkBob ("Bob", "Vitawerks") = 3 from by decide]
    unfold completion_pct round2 recBob
    norm_num
  simp only [process_allocation_csv]
  rw [show dropIgnored dfBob = dfBob from by decide]
  rw [show convertRows dfBob.rows =
    Except.ok [("Bob", [NCell.num 10])] from by decide]
  simp only [recordsOf, cellsRecords, sortRecs]
  norm_num [h]
  decide

/-- C2: a positive cell of the combined `Vars/Vita.` column yields exactly
one record, whose actual hours are the sum of the lookup's entries for
`VARS` and `Vitawerks` and whose emitted project name is the fixed label
`VARS/Vitawerks`, distinct from both member names; on Bob's concrete row
the emitted record is `{Bob, VARS/Vitawerks, 10.0, 7.0, 70.0}`. -/
theorem C2_varsVita_combined :
    (∀ (lk : Lookup) (n : String) (q : ℚ),
      processCell lk n "Vars/Vita." q =
        { name := n, project := "VARS/Vitawerks", expected := q,
          actual := lookupGet lk (n, "VARS") + lookupGet lk (n, "Vitawerks"),
          completion := completion_pct q
            (lookupGet lk (n, "VARS") + lookupGet lk (n, "Vitawerks")) }) ∧
    ("VARS/Vitawerks" : String) ≠ "VARS" ∧
    ("VARS/Vitawerks" : String) ≠ "Vitawerks" ∧
    process_allocation_csv dfBob lkBob = Except.ok ([recBob], dfBob) :=
  ⟨processCell_varsVita, by decide, by decide, process_dfBob⟩

/-! ## C3: completion percentage stays in [0, 100] -/

theorem round2_nonneg {q : ℚ} (h : 0 ≤ q) : 0 ≤ round2 q := by
  unfold round2
  have h1 : (0 : ℤ) ≤ round (q * 100) := by
    rw [round_eq]
    apply Int.le_floor.mpr
    push_cast
    linarith
  have h2 : (0 : ℚ) ≤ ((round (q * 100) : ℤ) : ℚ) := by exact_mod_cast h1
  linarith

theorem completion_pct_bounds {e a : ℚ} (ha : 0 ≤ a) :
    0 ≤ completion_pct e a ∧ completion_pct e a ≤ 100 := by
  unfold completion_pct
  by_cases he : 0 < e
  · rw [if_pos he]
    refine ⟨le_min ?_ (by norm_num), min_le_right _ _⟩
    apply round2_nonneg
    positivity
  · rw [if_neg he]
    norm_num

theorem lookupGet_nonneg {lk : Lookup} (hlk : ∀ p ∈ lk, 0 ≤ p.2)
    (k : String × String) : 0 ≤ lookupGet lk k := by
  unfold lookupGet
  cases hf : lk.find? (fun p => p.1 == k) with
  | none => exact le_refl 0
  | some p => exact hlk p (List.mem_of_find?_eq_some hf)

theorem actual_for_nonneg {lk : Lookup} (hlk : ∀ p ∈ lk, 0 ≤ p.2)
    (n c : String) : 0 ≤ actual_for lk n c := by
  unfold actual_for
  split_ifs
  · apply List.sum_nonneg
    intro x hx
    rcases List.mem_map.mp hx with ⟨p, _, he⟩
    exact he ▸ lookupGet_nonneg hlk _
  · exact lookupGet_nonneg hlk _
  · exact lookupGet_nonneg hlk _

/-- C3: when every value of the actual-hours lookup is non-negative, every
record emitted by `process_allocation_csv` has its completion percentage in
the closed interval `[0, 100]`. -/
theorem C3_completion_in_range (df : AllocDf) (lk : Lookup)
    (res : List RecR) (dfA : AllocDf) (hlk : ∀ p ∈ lk, 0 ≤ p.2)
    (h : process_allocation_csv df lk = Except.ok (res, dfA)) :
    ∀ r ∈ res, 0 ≤ r.completion ∧ r.completion ≤ 100 := by
  intro r hr
  rcases mem_process_ok h hr with ⟨n, c, q, _, he⟩
  subst he
  rw [processCell_completion]
  exact completion_pct_bounds (actual_for_nonneg hlk n c)

/-- Witness for C3 at the concrete overachievement input: the lookup is
non-negative and the emitted completion 100 lies in `[0, 100]`. -/
theorem C3_completion_in_range_witness :
    (∀ p ∈ lkC1, 0 ≤ p.2) ∧
      0 ≤ recC1.completion ∧ recC1.completion ≤ 100 :=
  ⟨by decide,
    C3_completion_in_range dfC1 lkC1 [recC1] dfC1 (by decide) process_dfC1
      recC1 (List.mem_singleton.mpr rfl)⟩

/-! ## C4: which cells are skipped, and what raises -/

/-- A cell `astype(float)` accepts: missing or numeric. -/
def cellNumericOk : Cell → Bool
  | Cell.str _ => false
  | _ => true

/-- A converted cell that produces a record: present and positive. -/
def nQualifies : NCell → Bool
  | NCell.num q => decide (0 < q)
  | NCell.na => false

/-- A raw cell that produces a record: numeric and positive. -/
def cQualifies : Cell → Bool
  | Cell.num q => decide (0 < q)
  | _ => false

/-- The number of positive numeric cells of the table after the ignored
columns are dropped. -/
def qualifyingCount (df : AllocDf) : Nat :=
  ((dropIgnored df).rows.map (fun r =>
    (((dropIgnored df).cols.zip r.2).filter (fun p => cQualifies p.2)).length)).sum

/-- A table with a non-numeric `SDI` cell. -/
def dfBad : AllocDf := { cols := ["SDI"], rows := [("Eve", [Cell.str "abc"])] }

theorem convertCells_ok_of_numeric :
    ∀ {cs : List Cell}, (∀ c ∈ cs, cellNumericOk c = true) →
      ∃ ns, convertCells cs = Except.ok ns := by
  intro cs
  induction cs with
  | nil => intro _; exact ⟨[], rfl⟩
  | cons c t ih =>
    intro h
    rcases ih (fun c hc => h c (List.mem_cons_of_mem _ hc)) with ⟨ts, hts⟩
    cases c with
    | na => exact ⟨NCell.na :: ts, by rw [convertCells, astype_float, hts]⟩
    | num q => exact ⟨NCell.num q :: ts, by rw [convertCells, astype_float, hts]⟩
    | str s => exact absurd (h _ (List.mem_cons_self _ _)) (by simp [cellNumericOk])

theorem convertRows_ok_of_numeric :
    ∀ {rows : List (String × List Cell)},
      (∀ r ∈ rows, ∀ c ∈ r.2, cellNumericOk c = true) →
      ∃ nrows, convertRows rows = Except.ok nrows := by
  intro rows
  induction rows with
  | nil => intro _; exact ⟨[], rfl⟩
  | cons r t ih =>
    intro h
    rcases ih (fun r hr => h r (List.mem_cons_of_mem _ hr)) with ⟨ts, hts⟩
    rcases convertCells_ok_of_numeric (h r (List.mem_cons_self _ _)) with ⟨ns, hns⟩
    exact ⟨(r.1, ns) :: ts, by rw [convertRows, hns, hts]⟩

theorem convertCells_error_of_str :
    ∀ {cs : List Cell}, (∃ c ∈ cs, cellNumericOk c = false) →
      ∃ e, convertCells cs = Except.error e := by
  intro cs
  induction cs with
  | nil => rintro ⟨c, hc, _⟩; simp at hc
  | cons c t ih =>
    rintro ⟨c', hc', hbad⟩
    rcases List.mem_cons.mp hc' with rfl | hmem
    · cases c' with
      | str s =>
        cases ht : convertCells t with
        | error e => exact ⟨_, by rw [convertCells, astype_float, ht]⟩
        | ok ts => exact ⟨_, by rw [convertCells, astype_float, ht]⟩
      | na => simp [cellNumericOk] at hbad
      | num q => simp [cellNumericOk] at hbad
    · cases c with
      | str s =>
        cases ht : convertCells t with
        | error e => exact ⟨_, by rw [convertCells, astype_float, ht]⟩
        | ok ts => exact ⟨_, by rw [convertCells, astype_float, ht]⟩
      | na =>
        rcases ih ⟨c', hmem, hbad⟩ with ⟨e, he⟩
        exact ⟨e, by rw [convertCells, astype_float, he]⟩
      | num q =>
        rcases ih ⟨c', hmem, hbad⟩ with ⟨e, he⟩
        exact ⟨e, by rw [convertCells, astype_float, he]⟩

theorem convertRows_error_of_str :
    ∀ {rows : List (String × List Cell)},
      (∃ r ∈ rows, ∃ c ∈ r.2, cellNumericOk c = false) →
      ∃ e, convertRows rows = Except.error e := by
  intro rows
  induction rows with
  | nil => rintro ⟨r, hr, _⟩; simp at hr
  | cons r t ih =>
    rintro ⟨r', hr', hbad⟩
    rcases List.mem_cons.mp hr' with rfl | hmem
    · rcases convertCells_error_of_str hbad with ⟨e, he⟩
      cases ht : convertRows t with
      | error e2 => exact ⟨_, by rw [convertRows, he, ht]⟩
      | ok ts => exact ⟨_, by rw [convertRows, he, ht]⟩
    · cases hc : convertCells r.2 with
      | error e => exact ⟨_, by
          rcases ih ⟨r', hmem, hbad⟩ with ⟨e2, he2⟩
          rw [convertRows, hc, he2]⟩
      | ok ns =>
        rcases ih ⟨r', hmem, hbad⟩ with ⟨e2, he2⟩
        exact ⟨e2, by rw [convertRows, hc, he2]⟩

theorem cellsRecords_length (lk : Lookup) (n : String) :
    ∀ ps, (cellsRecords lk n ps).length =
      (ps.filter (fun p => nQualifies p.2)).length := by
  intro ps
  induction ps with
  | nil => rfl
  | cons p t ih =>
    rcases p with ⟨c, cell⟩
    cases cell with
    | na => simpa [cellsRecords, nQualifies] using ih
    | num q =>
      by_cases hq : 0 < q
      · rw [cellsRecords, if_pos hq]
        simpa [nQualifies, hq] using ih
      · rw [cellsRecords, if_neg hq]
        simpa [nQualifies, hq] using ih

theorem convertCells_filter_length {cs : List Cell} :
    ∀ {ns : List NCell}, convertCells cs = Except.ok ns →
      ∀ cols : List String,
        ((cols.zip ns).filter (fun p => nQualifies p.2)).length =
          ((cols.zip cs).filter (fun p => cQualifies p.2)).length := by
  induction cs with
  | nil =>
    intro ns h cols
    have : ns = [] := by simpa [convertCells] using h.symm
    subst this
    simp
  | cons c t ih =>
    intro ns h cols
    cases c with
    | str s => simp [convertCells, astype_float] at h
    | na =>
      rw [convertCells, astype_float] at h
      cases ht : convertCells t with
      | error e => rw [ht] at h; simp at h
      | ok ts =>
        rw [ht] at h
        simp only [Except.ok.injEq] at h
        subst h
        cases cols with
        | nil => simp
        | cons co cot =>
          simp only [List.zip_cons_cons, List.filter_cons]
          simpa [nQualifies, cQualifies] using ih ht cot
    | num q =>
      rw [convertCells, astype_float] at h
      cases ht : convertCells t with
      | error e => rw [ht] at h; simp at h
      | ok ts =>
        rw [ht] at h
        simp only [Except.ok.injEq] at h
        subst h
        cases cols with
        | nil => simp
        | cons co cot =>
          simp only [List.zip_cons_cons, List.filter_cons]
          by_cases hq : 0 < q
          · simpa [nQualifies, cQualifies, hq] using ih ht cot
          · simpa [nQualifies, cQualifies, hq] using ih ht cot

theorem recordsOf_length {lk : Lookup} {cols : List String} :
    ∀ {rows : List (String × List Cell)}
      {nrows : List (String × List NCell)},
      convertRows rows = Except.ok nrows →
      (recordsOf lk cols nrows).length =
        (rows.map (fun r =>
          ((cols.zip r.2).filter (fun p => cQualifies p.2)).length)).sum := by
  intro rows
  induction rows with
  | nil =>
    intro nrows h
    have : nrows = [] := by simpa [convertRows] using h.symm
    subst this
    simp [recordsOf]
  | cons r t ih =>
    intro nrows h
    rw [convertRows] at h
    cases hc : convertCells r.2 with
    | error e => rw [hc] at h; simp at h
    | ok ns =>
      rw [hc] at h
      cases ht : convertRows t with
      | error e => rw [ht] at h; simp at h
      | ok ts =>
        rw [ht] at h
        simp only [Except.ok.injEq] at h
        subst h
        rw [recordsOf]
        simp only [List.length_append, List.map_cons, List.sum_cons]
        rw [cellsRecords_length, convertCells_filter_length hc cols, ih ht]

/-- C4 counterexample: a non-numeric cell is not silently skipped — the
float conversion of its column raises and the exception escapes the
reconciliation call. -/
theorem C4_counterexample :
    process_allocation_csv dfBad [] =
      Except.error "could not convert string to float: abc" := by
  decide

/-- C4 as amended: NA and non-positive cells are silently skipped (they
produce no record and no error): when every cell of the table is numeric
or missing, the call succeeds and emits exactly one record per positive
numeric cell of the non-ignored columns.  A non-numeric cell, however,
makes the call raise. -/
theorem C4_skip_semantics (df : AllocDf) (lk : Lookup) :
    ((∀ r ∈ df.rows, ∀ c ∈ r.2, cellNumericOk c = true) →
      ∃ res dfA, process_allocation_csv df lk = Except.ok (res, dfA) ∧
        res.length = qualifyingCount df) ∧
    ((∃ r ∈ (dropIgnored df).rows, ∃ c ∈ r.2, cellNumericOk c = false) →
      ∃ e, process_allocation_csv df lk = Except.error e) := by
  constructor
  · intro hnum
    have hd : ∀ r ∈ (dropIgnored df).rows, ∀ c ∈ r.2, cellNumericOk c = true := by
      intro r hr c hc
      rcases List.mem_map.mp hr with ⟨r0, hr0, he⟩
      rw [← he] at hc
      rcases List.mem_map.mp hc with ⟨p, hp, hpe⟩
      have hp2 : p ∈ df.cols.zip r0.2 := List.mem_of_mem_filter hp
      exact hpe ▸ hnum r0 hr0 p.2 (List.of_mem_zip hp2).2
    rcases convertRows_ok_of_numeric hd with ⟨nrows, hconv⟩
    refine ⟨sortRecs (recordsOf lk (dropIgnored df).cols nrows),
      (if df.cols.any (fun c => isIgnored c) then df
        else { cols := df.cols
               rows := nrows.map (fun r => (r.1, r.2.map backCell)) }), ?_, ?_⟩
    · simp only [process_allocation_csv]
      rw [hconv]
    · rw [sortRecs, List.length_insertionSort, recordsOf_length hconv]
      rfl
  · intro hbad
    rcases convertRows_error_of_str hbad with ⟨e, he⟩
    exact ⟨e, by simp only [process_allocation_csv]; rw [he]⟩

/-- A table exercising the skip rules: a positive cell, an NA cell and a
zero cell; only the positive one yields a record. -/
def df4 : AllocDf :=
  { cols := ["SDI", "Kinergy", "Lithium"],
    rows := [("Ann", [Cell.num 5, Cell.na, Cell.num 0])] }

/-- Witness for C4: the numeric table succeeds with exactly the positive
cells emitted, and the non-numeric table raises. -/
theorem C4_skip_semantics_witness :
    (∃ res dfA, process_allocation_csv df4 [] = Except.ok (res, dfA) ∧
      res.length = qualifyingCount df4) ∧
    (∃ e, process_allocation_csv dfBad [] = Except.error e) :=
  ⟨(C4_skip_semantics df4 []).1 (by decide),
   (C4_skip_semantics dfBad []).2 (by decide)⟩

/-! ## C5: sorted output, deterministic reconciliation -/

theorem recLe_total (a b : RecR) : recLe a b ∨ recLe b a := by
  unfold recLe recLeB
  by_cases h : a.name = b.name
  · simp only [h, beq_self_eq_true, if_true]
    exact strLe_total _ _
  · have h1 : (a.name == b.name) = false := beq_eq_false_iff_ne.mpr h
    have h2 : (b.name == a.name) = false :=
      beq_eq_false_iff_ne.mpr (fun e => h e.symm)
    simp only [h1, h2, if_false]
    exact strLe_total _ _

theorem recLe_trans (a b c : RecR) (h1 : recLe a b) (h2 : recLe b c) :
    recLe a c := by
  unfold recLe recLeB at h1 h2 ⊢
  by_cases hab : a.name = b.name
  · by_cases hbc : b.name = c.name
    · have hac : a.name = c.name := hab.trans hbc
      rw [if_pos (beq_iff_eq.mpr hab)] at h1
      rw [if_pos (beq_iff_eq.mpr hbc)] at h2
      rw [if_pos (beq_iff_eq.mpr hac)]
      exact strLe_trans h1 h2
    · have hac : a.name ≠ c.name := fun e => hbc (hab.symm.trans e)
      rw [if_neg (by simpa using hbc)] at h2
      rw [if_neg (by simpa using hac), hab]
      exact h2
  · by_cases hbc : b.name = c.name
    · have hac : a.name ≠ c.name := fun e => hab (e.trans hbc.symm)
      rw [if_neg (by simpa using hab)] at h1
      rw [if_neg (by simpa using hac), ← hbc]
      exact h1
    · rw [if_neg (by simpa using hab)] at h1
      rw [if_neg (by simpa using hbc)] at h2
      by_cases hac : a.name = c.name
      · exfalso
        apply hab
        apply strLe_antisymm h1
        rw [← hac] at h2
        exact h2
      · rw [if_neg (by simpa using hac)]
        exact strLe_trans h1 h2

instance : IsTotal RecR recLe := ⟨recLe_total⟩

instance : IsTrans RecR recLe := ⟨fun a b c => recLe_trans a b c⟩

/-- C5: the emitted table is sorted ascending by the
`(employee name, project name)` key, and the reconciliation is a pure
function of its inputs (the embedding is deterministic, so two calls on
identical rows and an identical lookup are definitionally equal). -/
theorem C5_sorted_deterministic (df : AllocDf) (lk : Lookup)
    (res : List RecR) (dfA : AllocDf)
    (h : process_allocation_csv df lk = Except.ok (res, dfA)) :
    List.Sorted recLe res ∧
      process_allocation_csv df lk = process_allocation_csv df lk := by
  rcases process_ok_elim h with ⟨nrows, _, hres, _⟩
  rw [hres]
  exact ⟨List.sorted_insertionSort recLe _, rfl⟩

/-- Witness for C5 at the concrete one-record input. -/
theorem C5_sorted_deterministic_witness :
    List.Sorted recLe [recC1] ∧
      process_allocation_csv dfC1 lkC1 = process_allocation_csv dfC1 lkC1 :=
  C5_sorted_deterministic dfC1 lkC1 [recC1] dfC1 process_dfC1

/-! ## C6: external collaborator failure degrades gracefully -/

/-- The failure modes of the external call as the claim lists them: a
raised error, an empty result, or a result without the `time_spent`
column. -/
def isFailureOutcome (r : BqOutcome) : Prop :=
  (∃ m, r = BqOutcome.raised m) ∨ (∃ b, r = BqOutcome.ok b []) ∨
    (∃ ts, r = BqOutcome.ok false ts)

theorem actual_for_empty (n c : String) : actual_for [] n c = 0 := by
  unfold actual_for
  split_ifs
  · rw [show varsVitaProjects = ["VARS", "Vitawerks"] from by decide]
    simp [lookupGet]
  · rfl
  · rfl

/-- C6: on any failure of the external collaborator the lookup builder
returns an empty mapping (with the warning flag set exactly on the raised
case), every key then resolves to zero hours, and reconciliation proceeds
with every emitted record carrying zero actual hours. -/
theorem C6_fetch_failure_degrades (r : BqOutcome) (hf : isFailureOutcome r) :
    (fetch_all_actual_hours r).1 = [] ∧
    (∀ m, r = BqOutcome.raised m → (fetch_all_actual_hours r).2 = true) ∧
    (∀ k, lookupGet (fetch_all_actual_hours r).1 k = 0) ∧
    (∀ (df : AllocDf) (res : List RecR) (dfA : AllocDf),
      process_allocation_csv df (fetch_all_actual_hours r).1 =
        Except.ok (res, dfA) → ∀ rec ∈ res, rec.actual = 0) := by
  have h1 : (fetch_all_actual_hours r).1 = [] := by
    rcases hf with ⟨m, hm⟩ | ⟨b, hb⟩ | ⟨ts, hts⟩
    · rw [hm]; rfl
    · rw [hb]; rfl
    · rw [hts]
      simp [fetch_all_actual_hours, Bool.and_false]
  refine ⟨h1, ?_, ?_, ?_⟩
  · intro m hm; rw [hm]; rfl
  · intro k; rw [h1]; rfl
  · intro df res dfA h rec hrec
    rw [h1] at h
    rcases mem_process_ok h hrec with ⟨n, c, q, _, he⟩
    rw [he, processCell_actual, actual_for_empty]

/-- The record emitted for Alice under the empty lookup: zero actual
hours, zero completion. -/
def recC6 : RecR :=
  { name := "Alice", project := "SDI", expected := 10, actual := 0,
    completion := 0 }

theorem process_dfC1_empty :
    process_allocation_csv dfC1 [] = Except.ok ([recC6], dfC1) := by
  have h : processCell [] "Alice" "SDI" 10 = recC6 := by
    rw [processCell]
    rw [show actual_for ([] : Lookup) "Alice" "SDI" = 0 from by decide]
    rw [show standardized_project "SDI" = "SDI" from by decide]
    unfold completion_pct round2 recC6
    norm_num
  simp only [process_allocation_csv]
  rw [show dropIgnored dfC1 = dfC1 from by decide]
  rw [show convertRows dfC1.rows = Except.ok [("Alice", [NCell.num 10])] from
    by decide]
  simp only [recordsOf, cellsRecords, sortRecs]
  norm_num [h]
  decide

/-- Witness for C6 at a concrete raised transport error: empty mapping,
warning raised, and Alice's record carries zero actual hours. -/
theorem C6_fetch_failure_degrades_witness :
    (fetch_all_actual_hours (BqOutcome.raised "boom")).1 = [] ∧
    (fetch_all_actual_hours (BqOutcome.raised "boom")).2 = true ∧
    (∀ rec ∈ [recC6], rec.actual = 0) := by
  have hf : isFailureOutcome (BqOutcome.raised "boom") := Or.inl ⟨_, rfl⟩
  have h1 := (C6_fetch_failure_degrades _ hf).1
  refine ⟨h1, (C6_fetch_failure_degrades _ hf).2.1 _ rfl, ?_⟩
  apply (C6_fetch_failure_degrades _ hf).2.2.2 dfC1 [recC6] dfC1
  rw [h1]
  exact process_dfC1_empty

/-! ## C7: month canonicalization -/

theorem idxOf_getD :
    ∀ (l : List String) (s : String) (i : Nat), idxOf l s = some i →
      i < l.length ∧ l.getD i "" = s := by
  intro l
  induction l with
  | nil => intro s i h; simp [idxOf] at h
  | cons a t ih =>
    intro s i h
    rw [idxOf] at h
    by_cases ha : (a == s) = true
    · rw [if_pos ha] at h
      have : i = 0 := (Option.some.inj h).symm
      subst this
      exact ⟨Nat.succ_pos _, beq_iff_eq.mp ha⟩
    · rw [if_neg ha] at h
      rcases Option.map_eq_some'.mp h with ⟨j, hj, hij⟩
      rcases ih s j hj with ⟨hlt, hgd⟩
      subst hij
      exact ⟨Nat.succ_lt_succ hlt, hgd⟩

/-- C7 counterexample: on the empty string the source's canonicalization
does not follow the claimed algorithm — the exact-position lookup in
`list(calendar.month_name)` matches its entry 0 (the empty string), so the
result is `""`, while the claimed exact-mapping/substring/January-default
algorithm yields `"January"`. -/
theorem C7_counterexample :
    canonicalize_month "" = "" ∧ canonicalize_month_spec "" = "January" ∧
      canonicalize_month "" ≠ canonicalize_month_spec "" := by
  refine ⟨by decide, by decide, by decide⟩

/-- C7 as amended: for every non-empty input the source's month
canonicalization agrees with the claimed algorithm (exact lookup in the
month mapping, case-insensitive substring match in either direction
against the twelve full month names, default January on a total miss), and
the three concrete examples hold; the empty string is the lone exception,
canonicalizing to the empty name. -/
theorem C7_month_canonicalization :
    (∀ m : String, m ≠ "" →
      canonicalize_month m = canonicalize_month_spec m) ∧
    canonicalize_month "Xyz" = "January" ∧
    canonicalize_month "Mar" = "March" ∧
    canonicalize_month "March" = "March" ∧
    canonicalize_month "" = "" := by
  refine ⟨?_, by decide, by decide, by decide, by decide⟩
  intro m hm
  cases hf : MONTH_MAPPING.find? (fun p => p.1 == m) with
  | some p =>
    have hp := List.mem_of_find?_eq_some hf
    have h2 := List.find?_some hf
    have hm' : p.1 = m := beq_iff_eq.mp (by simpa using h2)
    subst hm'
    fin_cases hp <;> decide
  | none =>
    have hstd : standardize_month_name m = m := by
      rw [standardize_month_name, hf]
    cases hidx : idxOf month_name m with
    | none =>
      rw [canonicalize_month, get_month_number]
      rw [hstd, hidx]
      rw [canonicalize_month_spec, hf]
    | some i =>
      obtain ⟨hlt, hgd⟩ := idxOf_getD month_name m i hidx
      rw [show month_name.length = 13 from rfl] at hlt
      interval_cases i <;>
        first
        | exact absurd hgd.symm hm
        | (subst hgd; decide)

/-- Witness for C7 at the concrete abbreviation `"Mar"`. -/
theorem C7_month_canonicalization_witness :
    ("Mar" : String) ≠ "" ∧
      canonicalize_month "Mar" = canonicalize_month_spec "Mar" :=
  ⟨by decide, C7_month_canonicalization.1 "Mar" (by decide)⟩

/-! ## C8: month number range and abbreviation consistency -/

theorem monthSubstrFallback_range (s : String) :
    1 ≤ monthSubstrFallback s ∧ monthSubstrFallback s ≤ 12 := by
  unfold monthSubstrFallback
  cases hf : (List.range 13).find? (fun i =>
      decide (0 < i) &&
        (substrOf (lowerStr s) (lowerStr (month_name.getD i "")) ||
         substrOf (lowerStr (month_name.getD i "")) (lowerStr s))) with
  | none => exact ⟨le_refl 1, by norm_num⟩
  | some i =>
    have hmem := List.mem_of_find?_eq_some hf
    have hp := List.find?_some hf
    have hi : i < 13 := List.mem_range.mp hmem
    have h0 : 0 < i := of_decide_eq_true ((Bool.and_eq_true _ _).mp hp).1
    exact ⟨h0, Nat.lt_succ_iff.mp hi⟩

theorem standardize_month_name_ne_empty {m : String} (hm : m ≠ "") :
    standardize_month_name m ≠ "" := by
  unfold standardize_month_name
  cases hf : MONTH_MAPPING.find? (fun p => p.1 == m) with
  | none => exact hm
  | some p =>
    have hp := List.mem_of_find?_eq_some hf
    have hall : ∀ q ∈ MONTH_MAPPING, q.2 ≠ "" := by decide
    exact hall p hp

theorem get_month_number_le (m : String) : get_month_number m ≤ 12 := by
  simp only [get_month_number]
  cases hidx : idxOf month_name (standardize_month_name m) with
  | some i =>
    have h := (idxOf_getD _ _ _ hidx).1
    rw [show month_name.length = 13 from rfl] at h
    exact Nat.lt_succ_iff.mp h
  | none => exact (monthSubstrFallback_range _).2

theorem get_month_number_pos {m : String} (hm : m ≠ "") :
    1 ≤ get_month_number m := by
  simp only [get_month_number]
  cases hidx : idxOf month_name (standardize_month_name m) with
  | some i =>
    obtain ⟨hlt, hgd⟩ := idxOf_getD _ _ _ hidx
    rcases Nat.eq_zero_or_pos i with h0 | h0
    · subst h0
      exact absurd hgd.symm (standardize_month_name_ne_empty hm)
    · exact h0
  | none => exact (monthSubstrFallback_range _).1

theorem month_abbr_take (n : Nat) (hn : n ≤ 12) :
    (month_abbr.getD n "").data = (month_name.getD n "").data.take 3 := by
  interval_cases n <;> decide

/-- C8 counterexample: `get_month_number` is not always in `1..12` — on
the empty string the exact-position lookup matches entry 0 of
`list(calendar.month_name)` and the function returns 0. -/
theorem C8_counterexample :
    get_month_number "" = 0 ∧ ¬ 1 ≤ get_month_number "" := by
  refine ⟨by decide, by decide⟩

/-- C8 as amended: `get_month_number` is total (a Lean function), always
returns at most 12, returns a number in `1..12` on every non-empty input
(the empty string yields 0), the returned number is the calendar position
of the canonical full month name, and the 3-letter abbreviation used for
the warehouse period string is exactly the first three letters of that
full name. -/
theorem C8_month_number (m : String) :
    get_month_number m ≤ 12 ∧
    (m ≠ "" → 1 ≤ get_month_number m) ∧
    month_name.getD (get_month_number m) "" = canonicalize_month m ∧
    (month_abbr.getD (get_month_number m) "").data =
      (month_name.getD (get_month_number m) "").data.take 3 ∧
    (∀ y : String, month_str m y =
      month_abbr.getD (get_month_number m) "" ++ " " ++ y) :=
  ⟨get_month_number_le m,
   fun hm => get_month_number_pos hm,
   rfl,
   month_abbr_take _ (get_month_number_le m),
   fun _ => rfl⟩

/-- Witness for C8 at the concrete abbreviation `"Mar"`. -/
theorem C8_month_number_witness :
    ("Mar" : String) ≠ "" ∧ get_month_number "Mar" ≤ 12 ∧
      1 ≤ get_month_number "Mar" :=
  ⟨by decide, (C8_month_number "Mar").1, (C8_month_number "Mar").2.1 (by decide)⟩

/-! ## C9: the caller's DataFrame is unchanged -/

theorem zip_filter_keep {α : Type} :
    ∀ (cols : List String) (cells : List α) (p : String → Bool),
      cells.length = cols.length → (∀ c ∈ cols, p c = true) →
      ((cols.zip cells).filter (fun x => p x.1)).map (·.2) = cells := by
  intro cols
  induction cols with
  | nil =>
    intro cells p hlen _
    rw [List.length_eq_zero.mp hlen]
    rfl
  | cons co cot ih =>
    intro cells p hlen hall
    cases cells with
    | nil => simp at hlen
    | cons c ct =>
      simp only [List.zip_cons_cons, List.filter_cons,
        hall co (List.mem_cons_self _ _), if_true, List.map_cons]
      rw [ih ct p (by simpa using hlen)
        (fun c hc => hall c (List.mem_cons_of_mem _ hc))]

theorem convertCells_back :
    ∀ {cs : List Cell} {ns : List NCell}, convertCells cs = Except.ok ns →
      ns.map backCell = cs := by
  intro cs
  induction cs with
  | nil =>
    intro ns h
    have : ns = [] := by simpa [convertCells] using h.symm
    subst this
    rfl
  | cons c t ih =>
    intro ns h
    cases c with
    | str s => simp [convertCells, astype_float] at h
    | na =>
      rw [convertCells, astype_float] at h
      cases ht : convertCells t with
      | error e => rw [ht] at h; simp at h
      | ok ts =>
        rw [ht] at h
        simp only [Except.ok.injEq] at h
        subst h
        simp [backCell, ih ht]
    | num q =>
      rw [convertCells, astype_float] at h
      cases ht : convertCells t with
      | error e => rw [ht] at h; simp at h
      | ok ts =>
        rw [ht] at h
        simp only [Except.ok.injEq] at h
        subst h
        simp [backCell, ih ht]

theorem convertRows_back :
    ∀ {rows : List (String × List Cell)}
      {nrows : List (String × List NCell)},
      convertRows rows = Except.ok nrows →
      nrows.map (fun r => (r.1, r.2.map backCell)) = rows := by
  intro rows
  induction rows with
  | nil =>
    intro nrows h
    have : nrows = [] := by simpa [convertRows] using h.symm
    subst this
    rfl
  | cons r t ih =>
    intro nrows h
    rw [convertRows] at h
    cases hc : convertCells r.2 with
    | error e => rw [hc] at h; simp at h
    | ok ns =>
      rw [hc] at h
      cases ht : convertRows t with
      | error e => rw [ht] at h; simp at h
      | ok ts =>
        rw [ht] at h
        simp only [Except.ok.injEq] at h
        subst h
        simp only [List.map_cons, convertCells_back hc, ih ht]

/-- C9: for every rectangular input table, the content of the caller's
DataFrame after `process_allocation_csv` returns successfully equals its
content before the call: the in-place `astype(float)` column assignments
preserve every cell value (and when an ignored column is present, `drop`
already copied the frame). -/
theorem C9_caller_df_unchanged (df : AllocDf) (lk : Lookup)
    (res : List RecR) (dfA : AllocDf)
    (hal : ∀ r ∈ df.rows, r.2.length = df.cols.length)
    (h : process_allocation_csv df lk = Except.ok (res, dfA)) : dfA = df := by
  rcases process_ok_elim h with ⟨nrows, hconv, _, hdfA⟩
  by_cases hany : (df.cols.any (fun c => isIgnored c)) = true
  · rw [hdfA, if_pos hany]
  · rw [hdfA, if_neg hany]
    have hnone : ∀ c ∈ df.cols, isIgnored c = false := by
      intro c hc
      by_contra hcontra
      exact hany (List.any_eq_true.mpr ⟨c, hc, by simpa using hcontra⟩)
    have hrows : (dropIgnored df).rows = df.rows := by
      show df.rows.map (fun r =>
        (r.1, ((df.cols.zip r.2).filter (fun p => !(isIgnored p.1))).map (·.2)))
          = df.rows
      conv_rhs => rw [← List.map_id df.rows]
      apply List.map_congr_left
      intro r hr
      have hz := zip_filter_keep df.cols r.2 (fun c => !(isIgnored c))
        (hal r hr) (fun c hc => by simp [hnone c hc])
      rw [hz]
      rfl
    rw [hrows] at hconv
    rw [convertRows_back hconv]

/-- Witness for C9 at the concrete one-row table. -/
theorem C9_caller_df_unchanged_witness :
    (∀ r ∈ dfC1.rows, r.2.length = dfC1.cols.length) ∧ dfC1 = dfC1 :=
  ⟨by decide,
   C9_caller_df_unchanged dfC1 lkC1 [recC1] dfC1 (by decide) process_dfC1⟩

/-! ## C10: the lookup influences only actual hours and completion -/

/-- The lookup-independent part of an output record: its `Name`, `Project`
and `Expected Hours` fields. -/
def skel (r : RecR) : String × String × ℚ := (r.name, r.project, r.expected)

/-- The sort key order on record skeletons. -/
def skelLeB (a b : String × String × ℚ) : Bool :=
  if a.1 == b.1 then strLe a.2.1 b.2.1 else strLe a.1 b.1

/-- The skeleton sort relation as a `Prop`. -/
def skelLe (a b : String × String × ℚ) : Prop := skelLeB a b = true

instance : DecidableRel skelLe := fun a b => by unfold skelLe; infer_instance

theorem sortRecs_map_skel (l : List RecR) :
    (sortRecs l).map skel = (l.map skel).insertionSort skelLe :=
  List.map_insertionSort recLe skelLe skel l (fun _ _ _ _ => Iff.rfl)

theorem cellsRecords_map_skel (l1 l2 : Lookup) (n : String) :
    ∀ ps, (cellsRecords l1 n ps).map skel =
      (cellsRecords l2 n ps).map skel := by
  intro ps
  induction ps with
  | nil => rfl
  | cons p t ih =>
    rcases p with ⟨c, cell⟩
    cases cell with
    | na => simpa [cellsRecords] using ih
    | num q =>
      by_cases hq : 0 < q
      · rw [cellsRecords, cellsRecords, if_pos hq, if_pos hq]
        simpa [skel, processCell] using ih
      · rw [cellsRecords, cellsRecords, if_neg hq, if_neg hq]
        exact ih

theorem recordsOf_map_skel (l1 l2 : Lookup) (cols : List String) :
    ∀ rows, (recordsOf l1 cols rows).map skel =
      (recordsOf l2 cols rows).map skel := by
  intro rows
  induction rows with
  | nil => rfl
  | cons r t ih =>
    rw [recordsOf, recordsOf, List.map_append, List.map_append,
      cellsRecords_map_skel l1 l2, ih]

/-- C10: which records `process_allocation_csv` emits, and their `Name`,
`Project` and `Expected Hours` fields, depend only on the input table and
not on the actual-hours lookup: two runs on the same table under any two
lookups succeed or fail together, and on success produce outputs of equal
length with identical skeleton columns. -/
theorem C10_lookup_noninterference (df : AllocDf) (l1 l2 : Lookup) :
    (∀ (res1 : List RecR) (dfA1 : AllocDf) (res2 : List RecR) (dfA2 : AllocDf),
      process_allocation_csv df l1 = Except.ok (res1, dfA1) →
      process_allocation_csv df l2 = Except.ok (res2, dfA2) →
      res1.map skel = res2.map skel ∧ res1.length = res2.length) ∧
    (∀ e, process_allocation_csv df l1 = Except.error e ↔
      process_allocation_csv df l2 = Except.error e) := by
  constructor
  · intro res1 dfA1 res2 dfA2 h1 h2
    rcases process_ok_elim h1 with ⟨n1, hc1, hr1, _⟩
    rcases process_ok_elim h2 with ⟨n2, hc2, hr2, _⟩
    rw [hc1] at hc2
    have hn : n1 = n2 := Except.ok.inj hc2
    subst hn
    have hm : res1.map skel = res2.map skel := by
      rw [hr1, hr2, sortRecs_map_skel, sortRecs_map_skel,
        recordsOf_map_skel l1 l2]
    refine ⟨hm, ?_⟩
    have := congrArg List.length hm
    simpa using this
  · intro e
    simp only [process_allocation_csv]
    cases hc : convertRows (dropIgnored df).rows <;> simp

/-- Witness for C10: the same table under the real and the empty lookup
gives records with identical skeletons and equal lengths. -/
theorem C10_lookup_noninterference_witness :
    List.map skel [recC1] = List.map skel [recC6] ∧
      [recC1].length = [recC6].length :=
  (C10_lookup_noninterference dfC1 lkC1 []).1 [recC1] dfC1 [recC6] dfC1
    process_dfC1 process_dfC1_empty
